import Mathlib

/-!
# Verification of the engawa room broadcaster

Shallow embedding of the connection-lifecycle and broadcast subsystem:

* the Room aggregate (participants + bounded message history),
* the in-memory room repository (`InMemoryRoomRepository`),
* the WebSocket broadcast hub (`WebSocketMessagePusher`),
* the three use-case orchestrators (`ConnectParticipantUseCase`,
  `DisconnectParticipantUseCase`, `SendMessageUseCase`),
* the participant-list snapshot builder.

Client handles (`ClientId`) and message bodies (`MessageContent`) are
validated value objects wrapping strings; equality on them is exact string
equality, so they are embedded as plain `String`s here.  Timestamps are
millisecond integers, embedded as `Int`.
-/

namespace Engawa

/-- A participant record: `{id: ClientId, connected_at: Timestamp}`. -/
structure Participant where
  id : String
  connected_at : Int
deriving Repr, DecidableEq

/-- A chat-history entry: `{from: ClientId, content, timestamp}`
(the source field `from` is a Lean keyword, hence `from_`). -/
structure ChatMessage where
  from_ : String
  content : String
  timestamp : Int
deriving Repr, DecidableEq

/-- Modelled from the spec: the Room aggregate itself is not under `src/`
(only its repository wrapper, trait, tests and callers are), so its fields
follow §3 of the spec: participants keyed by ClientId, an insertion-ordered
message sequence, and the two capacity bounds. -/
structure Room where
  participants : List Participant
  messages : List ChatMessage
  participant_capacity : Nat
  message_capacity : Nat
deriving Repr, DecidableEq

namespace Room

/-- Modelled from the spec: `Room::with_capacity` starts empty with the
given capacity bounds (room id and creation time are immutable identity
data that no claim touches, so they are omitted). -/
def with_capacity (participant_capacity message_capacity : Nat) : Room :=
  { participants := [], messages := [],
    participant_capacity := participant_capacity,
    message_capacity := message_capacity }

/-- Modelled from the spec: `Room::add_participant` — "an insert that would
exceed capacity is rejected, not truncated" (§3); on success the
participant is appended to the keyed collection. -/
def add_participant (room : Room) (p : Participant) : Except Unit Room :=
  if room.participants.length + 1 > room.participant_capacity then
    Except.error ()
  else
    Except.ok { room with participants := room.participants ++ [p] }

/-- Modelled from the spec: `Room::remove_participant` — removal by id,
idempotent ("removing an absent id is not an error", §4.1). -/
def remove_participant (room : Room) (client_id : String) : Room :=
  { room with participants := room.participants.filter (fun p => p.id != client_id) }

/-- Modelled from the spec: `Room::add_message` — "an append that would
exceed capacity is rejected (message is dropped, not the oldest evicted)"
(§3); on success the message is appended in insertion order. -/
def add_message (room : Room) (m : ChatMessage) : Except Unit Room :=
  if room.messages.length + 1 > room.message_capacity then
    Except.error ()
  else
    Except.ok { room with messages := room.messages ++ [m] }

end Room

/-- `InMemoryRoomRepository::get_all_connected_client_ids`:
`room.participants.iter().map(|p| p.id.clone()).collect()`. -/
def get_all_connected_client_ids (room : Room) : List String :=
  room.participants.map (fun p => p.id)

/-- `InMemoryRoomRepository::count_connected_clients`: `room.participants.len()`. -/
def count_connected_clients (room : Room) : Nat :=
  room.participants.length

/-- `InMemoryRoomRepository::get_participants`: `room.participants.clone()`. -/
def get_participants (room : Room) : List Participant :=
  room.participants

/-- A registered delivery channel (`PusherChannel`, an unbounded sender):
modelled by whether its receiving side is still alive (`isOpen`) and the
payloads delivered through it so far (`sent`).  A send on a closed channel
fails and delivers nothing. -/
structure Chan where
  isOpen : Bool
  sent : List String
deriving Repr, DecidableEq

/-- The hub's association table `HashMap<String, PusherChannel>`, embedded
as an association list with HashMap semantics (unique keys maintained by
`insertChan`/`removeChan`). -/
abbrev ChanTable := List (String × Chan)

/-- HashMap lookup: first (and, with unique keys, only) binding of the key. -/
def lookupChan : ChanTable → String → Option Chan
  | [], _ => none
  | (k, c) :: rest, id => if k == id then some c else lookupChan rest id

/-- HashMap insert: overwrite the existing binding for the key, or add one. -/
def insertChan : ChanTable → String → Chan → ChanTable
  | [], k, c => [(k, c)]
  | (k', c') :: rest, k, c =>
    if k' == k then (k, c) :: rest else (k', c') :: insertChan rest k c

/-- HashMap remove: drop the binding for the key; no-op if absent. -/
def removeChan : ChanTable → String → ChanTable
  | [], _ => []
  | (k', c') :: rest, k =>
    if k' == k then rest else (k', c') :: removeChan rest k

/-- Replace the channel bound to a key (used by a successful send). -/
def updateChan : ChanTable → String → Chan → ChanTable
  | [], _, _ => []
  | (k', c') :: rest, k, c =>
    if k' == k then (k, c) :: rest else (k', c') :: updateChan rest k c

namespace WebSocketMessagePusher

/-- `WebSocketMessagePusher::register_client`: `clients.insert(client_id, sender)`. -/
def register_client (clients : ChanTable) (client_id : String) (sender : Chan) : ChanTable :=
  insertChan clients client_id sender

/-- `WebSocketMessagePusher::unregister_client`: `clients.remove(client_id)`. -/
def unregister_client (clients : ChanTable) (client_id : String) : ChanTable :=
  removeChan clients client_id

/-- One iteration of the `broadcast` loop body: look the target up; if it
has a channel, attempt `sender.send` (which succeeds and delivers exactly
when the channel is open, and on failure is only logged); if it is absent,
log and skip. -/
def sendTo (clients : ChanTable) (target : String) (content : String) : ChanTable :=
  match lookupChan clients target with
  | some ch =>
    if ch.isOpen then
      updateChan clients target { ch with sent := ch.sent ++ [content] }
    else
      clients
  | none => clients

/-- `WebSocketMessagePusher::broadcast`: iterate over `targets`, delivering
best-effort to each, and unconditionally return `Ok(())`.  The result is
the hub-level outcome paired with the updated channel table. -/
def broadcast (clients : ChanTable) (targets : List String) (content : String) :
    Except Unit Unit × ChanTable :=
  (Except.ok (), targets.foldl (fun cs t => sendTo cs t content) clients)

end WebSocketMessagePusher

/-- `ConnectError` (usecase/error.rs). -/
inductive ConnectError where
  | DuplicateClientId : String → ConnectError
  | RoomCapacityExceeded : ConnectError
deriving Repr, DecidableEq

/-- `SendMessageError` (usecase/error.rs). -/
inductive SendMessageError where
  | MessageCapacityExceeded : SendMessageError
  | BroadcastFailed : String → SendMessageError
deriving Repr, DecidableEq

/-- The shared server state the use cases act on: the one Room held by the
repository, and the hub's registration table. -/
structure ServerState where
  room : Room
  clients : ChanTable
deriving Repr, DecidableEq

/-- `ConnectParticipantUseCase::execute`: duplicate check against the
connected-id set, then repository insert (capacity errors mapped to
`RoomCapacityExceeded`), then hub registration; returns the recorded
connection timestamp.  `now` stands for `get_jst_timestamp()`. -/
def ConnectParticipantUseCase.execute (s : ServerState) (client_id : String)
    (sender : Chan) (now : Int) : Except ConnectError Int × ServerState :=
  let client_ids := get_all_connected_client_ids s.room
  if client_ids.any (fun id => id == client_id) then
    (Except.error (ConnectError.DuplicateClientId client_id), s)
  else
    match s.room.add_participant { id := client_id, connected_at := now } with
    | Except.error _ => (Except.error ConnectError.RoomCapacityExceeded, s)
    | Except.ok room' =>
      let clients' := WebSocketMessagePusher.register_client s.clients client_id sender
      (Except.ok now, { room := room', clients := clients' })

/-- `ConnectParticipantUseCase::build_participant_list`: the repository's
participant snapshot, stably sorted by `a.id.as_str().cmp(b.id.as_str())`
(Rust's `sort_by` is a stable sort; on a total order it coincides with
insertion sort). -/
def ConnectParticipantUseCase.build_participant_list (room : Room) : List Participant :=
  List.insertionSort (fun a b : Participant => a.id ≤ b.id) (get_participants room)

/-- `DisconnectParticipantUseCase::get_notify_targets`: all connected ids
except the excluded one. -/
def DisconnectParticipantUseCase.get_notify_targets (room : Room)
    (exclude_client_id : String) : List String :=
  (get_all_connected_client_ids room).filter (fun id => id != exclude_client_id)

/-- `DisconnectParticipantUseCase::execute`: membership check (absent id
fails with `Err(())`, the use-case-level NotFound), notify targets computed
before removal, repository removal, hub unregistration. -/
def DisconnectParticipantUseCase.execute (s : ServerState) (client_id : String) :
    Except Unit (List String) × ServerState :=
  let all_client_ids := get_all_connected_client_ids s.room
  if !(all_client_ids.any (fun id => id == client_id)) then
    (Except.error (), s)
  else
    let notify_targets := DisconnectParticipantUseCase.get_notify_targets s.room client_id
    let room' := s.room.remove_participant client_id
    let clients' := WebSocketMessagePusher.unregister_client s.clients client_id
    (Except.ok notify_targets, { room := room', clients := clients' })

/-- `SendMessageUseCase::get_broadcast_targets`: all connected ids except
the sender. -/
def SendMessageUseCase.get_broadcast_targets (room : Room)
    (exclude_client_id : String) : List String :=
  (get_all_connected_client_ids room).filter (fun id => id != exclude_client_id)

/-- `SendMessageUseCase::execute`: repository append (capacity errors
mapped to `MessageCapacityExceeded`, returning before any broadcast), then
broadcast targets, then hub broadcast (whose error, were it ever produced,
would map to `BroadcastFailed`); returns the target list. -/
def SendMessageUseCase.execute (s : ServerState) (from_client_id : String)
    (content : String) (json_message : String) (now : Int) :
    Except SendMessageError (List String) × ServerState :=
  match s.room.add_message
      { from_ := from_client_id, content := content, timestamp := now } with
  | Except.error _ => (Except.error SendMessageError.MessageCapacityExceeded, s)
  | Except.ok room' =>
    let broadcast_targets := SendMessageUseCase.get_broadcast_targets room' from_client_id
    match WebSocketMessagePusher.broadcast s.clients broadcast_targets json_message with
    | (Except.error _, clients') =>
      (Except.error (SendMessageError.BroadcastFailed ""), { room := room', clients := clients' })
    | (Except.ok _, clients') =>
      (Except.ok broadcast_targets, { room := room', clients := clients' })

end Engawa

namespace Engawa

/-! ## Sample states used by the witnesses -/

/-- A live delivery channel with nothing sent yet. -/
def freshChan : Chan := { isOpen := true, sent := [] }

/-- A room at participant capacity 2 holding alice and bob. -/
def sampleRoom2 : Room :=
  { participants := [{ id := "alice", connected_at := 1 }, { id := "bob", connected_at := 2 }],
    messages := [], participant_capacity := 2, message_capacity := 10 }

/-- Server state for `sampleRoom2` with both channels registered. -/
def sampleState2 : ServerState :=
  { room := sampleRoom2,
    clients := [("alice", freshChan), ("bob", freshChan)] }

/-- A room whose message history is at its capacity bound of 1. -/
def fullHistoryRoom : Room :=
  { participants := [{ id := "alice", connected_at := 1 }],
    messages := [{ from_ := "alice", content := "hi", timestamp := 3 }],
    participant_capacity := 5, message_capacity := 1 }

/-- Server state for `fullHistoryRoom`. -/
def fullHistoryState : ServerState :=
  { room := fullHistoryRoom, clients := [("alice", freshChan)] }

/-! ## C1: duplicate connect is rejected without mutation -/

/-- C1: for every room state and every client id already present in the
connected-id set, `ConnectParticipantUseCase::execute` returns
`DuplicateClientId` and returns the state unchanged — so the participant
count, the participant set, and the hub registration table are all exactly
as before the call. -/
theorem claim_C1_connect_duplicate_rejected_no_mutation
    (s : ServerState) (client_id : String) (sender : Chan) (now : Int)
    (h : client_id ∈ get_all_connected_client_ids s.room) :
    ConnectParticipantUseCase.execute s client_id sender now =
      (Except.error (ConnectError.DuplicateClientId client_id), s) := by
  have hany : (get_all_connected_client_ids s.room).any (fun id => id == client_id) = true := by
    rw [List.any_eq_true]
    exact ⟨client_id, h, by simp⟩
  simp [ConnectParticipantUseCase.execute, hany]

/-- Witness for C1 at a concrete state: reconnecting "alice" while she is
already connected fails with `DuplicateClientId` and changes nothing. -/
theorem claim_C1_witness :
    ConnectParticipantUseCase.execute sampleState2 "alice" freshChan 5 =
      (Except.error (ConnectError.DuplicateClientId "alice"), sampleState2) :=
  claim_C1_connect_duplicate_rejected_no_mutation sampleState2 "alice" freshChan 5 (by decide)

/-! ## C2: connect at participant capacity is rejected without mutation -/

/-- C2: for every room state whose participant count equals
`participant_capacity`, `ConnectParticipantUseCase::execute` with a fresh
(non-duplicate) client id returns `RoomCapacityExceeded` and returns the
state unchanged: the participant count stays exactly at capacity and the
delivery channel is never registered in the broadcast hub. -/
theorem claim_C2_connect_capacity_rejected_no_orphan
    (s : ServerState) (client_id : String) (sender : Chan) (now : Int)
    (hfull : count_connected_clients s.room = s.room.participant_capacity)
    (hfresh : client_id ∉ get_all_connected_client_ids s.room) :
    ConnectParticipantUseCase.execute s client_id sender now =
      (Except.error ConnectError.RoomCapacityExceeded, s) := by
  have hany : (get_all_connected_client_ids s.room).any (fun id => id == client_id) = false := by
    rw [List.any_eq_false]
    intro x hx
    simp only [beq_iff_eq]
    intro hxe
    exact hfresh (hxe ▸ hx)
  have hlen : s.room.participants.length = s.room.participant_capacity := hfull
  simp [ConnectParticipantUseCase.execute, hany, Room.add_participant, hlen]

/-- Witness for C2: admitting "carol" to the full two-seat `sampleState2`
fails with `RoomCapacityExceeded` and changes nothing. -/
theorem claim_C2_witness :
    ConnectParticipantUseCase.execute sampleState2 "carol" freshChan 5 =
      (Except.error ConnectError.RoomCapacityExceeded, sampleState2) :=
  claim_C2_connect_capacity_rejected_no_orphan sampleState2 "carol" freshChan 5
    (by decide) (by decide)

/-! ## C4: send at message capacity is rejected without mutation -/

/-- C4: for every room state whose message-history length equals
`message_capacity`, `SendMessageUseCase::execute` returns
`MessageCapacityExceeded` and returns the state unchanged: the history
stays exactly at the capacity bound (the new message is dropped, nothing
is evicted) and the hub's channel table is untouched, i.e. no broadcast
was attempted on any target. -/
theorem claim_C4_send_capacity_rejected_no_broadcast
    (s : ServerState) (from_client_id content json_message : String) (now : Int)
    (hfull : s.room.messages.length = s.room.message_capacity) :
    SendMessageUseCase.execute s from_client_id content json_message now =
      (Except.error SendMessageError.MessageCapacityExceeded, s) := by
  simp [SendMessageUseCase.execute, Room.add_message, hfull]

/-- Witness for C4: a third message into the one-slot full history of
`fullHistoryState` fails with `MessageCapacityExceeded`, and the state
(history and channels) is unchanged. -/
theorem claim_C4_witness :
    SendMessageUseCase.execute fullHistoryState "alice" "more" "{}" 7 =
      (Except.error SendMessageError.MessageCapacityExceeded, fullHistoryState) :=
  claim_C4_send_capacity_rejected_no_broadcast fullHistoryState "alice" "more" "{}" 7 (by decide)

/-! ## C6: disconnect of an unknown id is rejected without mutation -/

/-- C6: for every room state and every client id not in the connected-id
set, `DisconnectParticipantUseCase::execute` returns the error (`Err(())`,
surfaced as NotFound) and returns the state unchanged: connected count,
participant set, and hub registration table are exactly as before. -/
theorem claim_C6_disconnect_unknown_rejected_no_mutation
    (s : ServerState) (client_id : String)
    (h : client_id ∉ get_all_connected_client_ids s.room) :
    DisconnectParticipantUseCase.execute s client_id = (Except.error (), s) := by
  have hany : (get_all_connected_client_ids s.room).any (fun id => id == client_id) = false := by
    rw [List.any_eq_false]
    intro x hx
    simp only [beq_iff_eq]
    intro hxe
    exact h (hxe ▸ hx)
  simp [DisconnectParticipantUseCase.execute, hany]

/-- Witness for C6: disconnecting the unknown "carol" from `sampleState2`
fails and changes nothing. -/
theorem claim_C6_witness :
    DisconnectParticipantUseCase.execute sampleState2 "carol" = (Except.error (), sampleState2) :=
  claim_C6_disconnect_unknown_rejected_no_mutation sampleState2 "carol" (by decide)

end Engawa

namespace Engawa

/-! ## Helper lemmas on participant filtering -/

/-- Filtering out an id held by no participant of the list is the identity. -/
theorem filter_ne_id_eq_self (l : List Participant) (cid : String)
    (h : ∀ p ∈ l, p.id ≠ cid) :
    l.filter (fun p => p.id != cid) = l := by
  apply List.filter_eq_self.mpr
  intro p hp
  simp only [bne_iff_ne, ne_eq]
  exact h p hp

/-- Removing a present id from a duplicate-free participant list shrinks it
by exactly one. -/
theorem length_filter_ne_id (l : List Participant) (cid : String)
    (hmem : cid ∈ l.map (fun p => p.id))
    (hnodup : (l.map (fun p => p.id)).Nodup) :
    (l.filter (fun p => p.id != cid)).length + 1 = l.length := by
  induction l with
  | nil => simp at hmem
  | cons p rest ih =>
    simp only [List.map_cons, List.mem_cons, List.nodup_cons] at hmem hnodup
    by_cases hp : p.id = cid
    · have hrest : ∀ q ∈ rest, q.id ≠ cid := by
        intro q hq hqe
        exact hnodup.1 (hp ▸ hqe ▸ List.mem_map_of_mem (fun p => p.id) hq)
      rw [List.filter_cons]
      simp [hp, filter_ne_id_eq_self rest cid hrest]
    · have hmem' : cid ∈ rest.map (fun p => p.id) := by
        rcases hmem with h1 | h2
        · exact absurd h1.symm hp
        · exact h2
      have hrec := ih hmem' hnodup.2
      rw [List.filter_cons]
      have hbne : (p.id != cid) = true := by
        simp [bne_iff_ne, hp]
      simp only [hbne, if_pos]
      simp only [List.length_cons]
      omega

/-! ## C3: successful send appends one entry and targets everyone else -/

/-- C3: for every room state with capacity remaining in the message
history, `SendMessageUseCase::execute` appends exactly one entry with the
given sender and content to the history, leaves the participant set
unchanged, and returns the broadcast-target list equal to all connected
client ids minus the sender; in particular, when the sender is the only
connected client the returned target list is empty while the message is
still appended. -/
theorem claim_C3_send_appends_and_targets_others
    (s : ServerState) (from_client_id content json_message : String) (now : Int)
    (hcap : s.room.messages.length < s.room.message_capacity) :
    (SendMessageUseCase.execute s from_client_id content json_message now).1 =
      Except.ok ((get_all_connected_client_ids s.room).filter
        (fun id => id != from_client_id)) ∧
    (SendMessageUseCase.execute s from_client_id content json_message now).2.room.messages =
      s.room.messages ++ [{ from_ := from_client_id, content := content, timestamp := now }] ∧
    (SendMessageUseCase.execute s from_client_id content json_message now).2.room.participants =
      s.room.participants ∧
    (get_all_connected_client_ids s.room = [from_client_id] →
      (SendMessageUseCase.execute s from_client_id content json_message now).1 =
        Except.ok []) := by
  have hnotfull : ¬ (s.room.messages.length + 1 > s.room.message_capacity) := by omega
  have h1 : (SendMessageUseCase.execute s from_client_id content json_message now).1 =
      Except.ok ((get_all_connected_client_ids s.room).filter
        (fun id => id != from_client_id)) := by
    simp [SendMessageUseCase.execute, Room.add_message, hnotfull,
      SendMessageUseCase.get_broadcast_targets, get_all_connected_client_ids,
      WebSocketMessagePusher.broadcast]
  refine ⟨h1, ?_, ?_, ?_⟩
  · simp [SendMessageUseCase.execute, Room.add_message, hnotfull,
      WebSocketMessagePusher.broadcast]
  · simp [SendMessageUseCase.execute, Room.add_message, hnotfull,
      WebSocketMessagePusher.broadcast]
  · intro h
    rw [h1, h]
    simp

/-- Witness for C3: alice sends "yo" in the two-member `sampleState2`; the
history gains exactly that entry and the target list is `["bob"]`. -/
theorem claim_C3_witness :
    (SendMessageUseCase.execute sampleState2 "alice" "yo" "{}" 9).1 = Except.ok ["bob"] ∧
    (SendMessageUseCase.execute sampleState2 "alice" "yo" "{}" 9).2.room.messages =
      [{ from_ := "alice", content := "yo", timestamp := 9 }] := by
  have h := claim_C3_send_appends_and_targets_others sampleState2 "alice" "yo" "{}" 9
    (by decide)
  refine ⟨?_, ?_⟩
  · rw [h.1]
    rfl
  · rw [h.2.1]
    rfl

/-! ## C5: disconnect of a member notifies the others and shrinks by one -/

/-- C5: for every room state whose connected-id set is duplicate-free (the
Room invariant) and contains `client_id`,
`DisconnectParticipantUseCase::execute` succeeds, returns the notify-target
list equal to all pre-removal connected ids minus the disconnecting one,
and decreases the connected count by exactly one; in particular,
disconnecting the sole remaining participant returns the empty list. -/
theorem claim_C5_disconnect_member_notifies_others
    (s : ServerState) (client_id : String)
    (hmem : client_id ∈ get_all_connected_client_ids s.room)
    (hnodup : (get_all_connected_client_ids s.room).Nodup) :
    (DisconnectParticipantUseCase.execute s client_id).1 =
      Except.ok ((get_all_connected_client_ids s.room).filter
        (fun id => id != client_id)) ∧
    count_connected_clients (DisconnectParticipantUseCase.execute s client_id).2.room + 1 =
      count_connected_clients s.room ∧
    (get_all_connected_client_ids s.room = [client_id] →
      (DisconnectParticipantUseCase.execute s client_id).1 = Except.ok []) := by
  have hany : (get_all_connected_client_ids s.room).any (fun id => id == client_id) = true := by
    rw [List.any_eq_true]
    exact ⟨client_id, hmem, by simp⟩
  refine ⟨?_, ?_, ?_⟩
  · simp [DisconnectParticipantUseCase.execute, hany,
      DisconnectParticipantUseCase.get_notify_targets]
  · simp only [DisconnectParticipantUseCase.execute, hany, Bool.not_true, Bool.false_eq_true,
      if_false, count_connected_clients, Room.remove_participant]
    exact length_filter_ne_id s.room.participants client_id hmem hnodup
  · intro h
    simp [DisconnectParticipantUseCase.execute, hany,
      DisconnectParticipantUseCase.get_notify_targets, h]

/-- Witness for C5: bob disconnects from `sampleState2`; the notify list is
`["alice"]` and the connected count drops from 2 to 1. -/
theorem claim_C5_witness :
    (DisconnectParticipantUseCase.execute sampleState2 "bob").1 = Except.ok ["alice"] ∧
    count_connected_clients (DisconnectParticipantUseCase.execute sampleState2 "bob").2.room + 1 =
      count_connected_clients sampleState2.room := by
  have h := claim_C5_disconnect_member_notifies_others sampleState2 "bob"
    (by decide) (by decide)
  refine ⟨?_, h.2.1⟩
  rw [h.1]
  rfl

/-! ## C10: the sender's membership is never checked -/

/-- C10: `SendMessageUseCase::execute` never checks that the sender is a
connected participant: with room left in the history, a sender id absent
from the participant set still gets its message appended to the history,
and the returned broadcast-target list is the entire connected-id set (the
exclusion filter removes nothing). -/
theorem claim_C10_send_unknown_sender_targets_all
    (s : ServerState) (from_client_id content json_message : String) (now : Int)
    (hcap : s.room.messages.length < s.room.message_capacity)
    (habs : from_client_id ∉ get_all_connected_client_ids s.room) :
    (SendMessageUseCase.execute s from_client_id content json_message now).1 =
      Except.ok (get_all_connected_client_ids s.room) ∧
    (SendMessageUseCase.execute s from_client_id content json_message now).2.room.messages =
      s.room.messages ++ [{ from_ := from_client_id, content := content, timestamp := now }] := by
  have hfilter : (get_all_connected_client_ids s.room).filter
      (fun id => id != from_client_id) = get_all_connected_client_ids s.room := by
    apply List.filter_eq_self.mpr
    intro a ha
    simp only [bne_iff_ne, ne_eq]
    intro heq
    exact habs (heq ▸ ha)
  have h := claim_C3_send_appends_and_targets_others s from_client_id content
    json_message now hcap
  exact ⟨by rw [h.1, hfilter], h.2.1⟩

/-- Witness for C10: the "unknown" sender substituted by the lenient-decode
path is not connected in `sampleState2`, yet its message is appended and
both alice and bob are targeted. -/
theorem claim_C10_witness :
    (SendMessageUseCase.execute sampleState2 "unknown" "hi" "{}" 4).1 =
      Except.ok ["alice", "bob"] ∧
    (SendMessageUseCase.execute sampleState2 "unknown" "hi" "{}" 4).2.room.messages =
      [{ from_ := "unknown", content := "hi", timestamp := 4 }] := by
  have h := claim_C10_send_unknown_sender_targets_all sampleState2 "unknown" "hi" "{}" 4
    (by decide) (by decide)
  refine ⟨?_, ?_⟩
  · rw [h.1]
    rfl
  · rw [h.2]
    rfl

end Engawa

namespace Engawa

/-! ## C8: participant snapshot listing is sorted by handle -/

instance : IsTotal Participant (fun a b => a.id ≤ b.id) :=
  ⟨fun a b => le_total a.id b.id⟩

instance : IsTrans Participant (fun a b => a.id ≤ b.id) :=
  ⟨fun _ _ _ hab hbc => le_trans hab hbc⟩

/-- C8: for every room state, regardless of the order in which participants
were inserted, `build_participant_list` returns exactly the stored
participants (a permutation of the snapshot) arranged in ascending
lexicographic order of their client-id handles. -/
theorem claim_C8_participant_list_sorted (room : Room) :
    List.Sorted (fun a b : Participant => a.id ≤ b.id)
      (ConnectParticipantUseCase.build_participant_list room) ∧
    List.Perm (ConnectParticipantUseCase.build_participant_list room)
      (get_participants room) := by
  constructor
  · exact List.sorted_insertionSort _ _
  · exact List.perm_insertionSort _ _

/-! ## C7: broadcast is best-effort and never fails -/

/-- Updating the binding of a key leaves every other key's lookup intact. -/
theorem lookupChan_updateChan_ne (l : ChanTable) (t k : String) (c : Chan)
    (h : k ≠ t) : lookupChan (updateChan l t c) k = lookupChan l k := by
  induction l with
  | nil => rfl
  | cons hd rest ih =>
    obtain ⟨k', c'⟩ := hd
    cases he : k' == t with
    | false =>
      simp only [updateChan, he, Bool.false_eq_true, if_false, lookupChan]
      cases hk : k' == k with
      | false => simp only [hk, Bool.false_eq_true, if_false, ih]
      | true => simp only [hk, if_true]
    | true =>
      have hkt : k' = t := by simpa using he
      simp only [updateChan, he, if_true, lookupChan]
      have h1 : (t == k) = false := by
        simp only [beq_eq_false_iff_ne, ne_eq]
        exact fun hh => h hh.symm
      have h2 : (k' == k) = false := by
        simp only [beq_eq_false_iff_ne, ne_eq, hkt]
        exact fun hh => h hh.symm
      simp only [h1, h2, Bool.false_eq_true, if_false]

/-- Updating the binding of a bound key makes its lookup the new channel. -/
theorem lookupChan_updateChan_self (l : ChanTable) (t : String) (c₀ c : Chan)
    (h : lookupChan l t = some c₀) : lookupChan (updateChan l t c) t = some c := by
  induction l with
  | nil => simp [lookupChan] at h
  | cons hd rest ih =>
    obtain ⟨k', c'⟩ := hd
    cases he : k' == t with
    | false =>
      simp only [lookupChan, he, Bool.false_eq_true, if_false] at h
      simp only [updateChan, he, Bool.false_eq_true, if_false, lookupChan]
      exact ih h
    | true =>
      have hkt : k' = t := by simpa using he
      have htt : (t == t) = true := by simp
      simp only [updateChan, he, if_true, lookupChan, htt]

/-- One delivery step preserves every registered channel (same liveness,
only growing its delivered payloads) and, when the step's target is that
channel and it is live, delivers the payload to it. -/
theorem sendTo_lookup (clients : ChanTable) (t content id : String) (ch : Chan)
    (h : lookupChan clients id = some ch) :
    ∃ ch', lookupChan (WebSocketMessagePusher.sendTo clients t content) id = some ch' ∧
      ch'.isOpen = ch.isOpen ∧ ch.sent.Sublist ch'.sent ∧
      (id = t → ch.isOpen = true → content ∈ ch'.sent) := by
  unfold WebSocketMessagePusher.sendTo
  cases hlook : lookupChan clients t with
  | none =>
    refine ⟨ch, h, rfl, List.Sublist.refl _, ?_⟩
    intro he _
    subst he
    rw [h] at hlook
    exact absurd hlook (by simp)
  | some cht =>
    by_cases hopen : cht.isOpen = true
    · simp only [hopen, if_true]
      by_cases hid : id = t
      · subst hid
        rw [h] at hlook
        have hce : ch = cht := Option.some.inj hlook
        subst hce
        refine ⟨{ isOpen := true, sent := ch.sent ++ [content] },
          lookupChan_updateChan_self clients id ch _ h, hopen.symm, ?_, ?_⟩
        · exact List.sublist_append_left _ _
        · intro _ _
          simp
      · refine ⟨ch, ?_, rfl, List.Sublist.refl _, fun he => absurd he hid⟩
        rw [lookupChan_updateChan_ne clients t id _ hid]
        exact h
    · simp only [hopen, if_false]
      refine ⟨ch, h, rfl, List.Sublist.refl _, ?_⟩
      intro he hch
      subst he
      rw [h] at hlook
      have hce : ch = cht := Option.some.inj hlook
      rw [hce] at hch
      exact absurd hch hopen

/-- Folding the delivery step over a whole target list preserves every
registered channel and delivers the payload to each live channel whose id
occurs among the targets. -/
theorem foldl_sendTo_lookup (targets : List String) (clients : ChanTable)
    (content id : String) (ch : Chan) (h : lookupChan clients id = some ch) :
    ∃ ch', lookupChan
        (targets.foldl (fun cs t => WebSocketMessagePusher.sendTo cs t content) clients) id =
        some ch' ∧
      ch'.isOpen = ch.isOpen ∧ ch.sent.Sublist ch'.sent ∧
      (id ∈ targets → ch.isOpen = true → content ∈ ch'.sent) := by
  induction targets generalizing clients ch with
  | nil =>
    exact ⟨ch, h, rfl, List.Sublist.refl _, fun hmem => absurd hmem (List.not_mem_nil _)⟩
  | cons t ts ih =>
    obtain ⟨ch₁, h₁, hopen₁, hsub₁, hdel₁⟩ := sendTo_lookup clients t content id ch h
    obtain ⟨ch₂, h₂, hopen₂, hsub₂, hdel₂⟩ :=
      ih (WebSocketMessagePusher.sendTo clients t content) ch₁ h₁
    refine ⟨ch₂, h₂, by rw [hopen₂, hopen₁], hsub₁.trans hsub₂, ?_⟩
    intro hmem hopen
    rcases List.mem_cons.mp hmem with rfl | hmem'
    · exact hsub₂.subset (hdel₁ rfl hopen)
    · exact hdel₂ hmem' (by rw [hopen₁]; exact hopen)

/-- C7: for every registration table, target list, and payload,
`WebSocketMessagePusher::broadcast` returns Ok — never an error — and every
target that is registered with a live channel receives the payload, no
matter which other targets are absent from the table or have closed
channels. -/
theorem claim_C7_broadcast_never_fails_delivers_to_live
    (clients : ChanTable) (targets : List String) (content : String) :
    (WebSocketMessagePusher.broadcast clients targets content).1 = Except.ok () ∧
    ∀ id ch, lookupChan clients id = some ch → ch.isOpen = true → id ∈ targets →
      ∃ ch', lookupChan (WebSocketMessagePusher.broadcast clients targets content).2 id =
          some ch' ∧ content ∈ ch'.sent := by
  constructor
  · rfl
  · intro id ch h hopen hmem
    obtain ⟨ch', h', _, _, hdel⟩ := foldl_sendTo_lookup targets clients content id ch h
    exact ⟨ch', h', hdel hmem hopen⟩

/-- A demo hub table: alice live, bob's channel closed. -/
def demoTable : ChanTable :=
  [("alice", { isOpen := true, sent := [] }), ("bob", { isOpen := false, sent := [] })]

/-- Witness for C7: broadcasting to an unknown id, a closed channel, and
alice still returns Ok and delivers the payload to alice. -/
theorem claim_C7_witness :
    (WebSocketMessagePusher.broadcast demoTable ["ghost", "bob", "alice"] "hi").1 =
      Except.ok () ∧
    ∃ ch', lookupChan
        (WebSocketMessagePusher.broadcast demoTable ["ghost", "bob", "alice"] "hi").2
        "alice" = some ch' ∧ "hi" ∈ ch'.sent :=
  ⟨(claim_C7_broadcast_never_fails_delivers_to_live demoTable ["ghost", "bob", "alice"] "hi").1,
    (claim_C7_broadcast_never_fails_delivers_to_live demoTable ["ghost", "bob", "alice"] "hi").2
      "alice" { isOpen := true, sent := [] } (by decide) (by decide) (by decide)⟩

end Engawa

namespace Engawa

/-! ## C9: hub registrations and room membership stay in lockstep -/

/-- A completed externally-triggered lifecycle operation: an admission
attempt or a disconnect attempt, each run to completion. -/
inductive Op where
  | connect (client_id : String) (sender : Chan) (now : Int)
  | disconnect (client_id : String)

/-- The state reached after one completed operation (failed attempts leave
the state as the use cases return it). -/
def applyOp (s : ServerState) : Op → ServerState
  | Op.connect client_id sender now =>
    (ConnectParticipantUseCase.execute s client_id sender now).2
  | Op.disconnect client_id =>
    (DisconnectParticipantUseCase.execute s client_id).2

/-- The state reached after a sequence of completed operations. -/
def run (s : ServerState) (ops : List Op) : ServerState :=
  ops.foldl applyOp s

/-- The lockstep invariant: both key collections are duplicate-free, and
the hub's registered ids coincide with the room's participant ids. -/
def InSync (s : ServerState) : Prop :=
  (s.clients.map Prod.fst).Nodup ∧
  (s.room.participants.map (fun p => p.id)).Nodup ∧
  ∀ x : String, x ∈ s.clients.map Prod.fst ↔
    x ∈ s.room.participants.map (fun p => p.id)

/-- Appending a fresh element keeps a list duplicate-free. -/
theorem nodup_append_singleton {α : Type} (l : List α) (a : α)
    (h : l.Nodup) (ha : a ∉ l) : (l ++ [a]).Nodup := by
  rw [List.nodup_append]
  refine ⟨h, List.nodup_singleton a, ?_⟩
  intro x hx hx'
  rw [List.mem_singleton] at hx'
  subst hx'
  exact ha hx

/-- Inserting a fresh key appends it to the key list. -/
theorem keys_insertChan_of_not_mem (l : ChanTable) (k : String) (c : Chan)
    (h : k ∉ l.map Prod.fst) :
    (insertChan l k c).map Prod.fst = l.map Prod.fst ++ [k] := by
  induction l with
  | nil => rfl
  | cons hd rest ih =>
    obtain ⟨k', c'⟩ := hd
    simp only [List.map_cons, List.mem_cons] at h
    push_neg at h
    have he : (k' == k) = false := by
      simp only [beq_eq_false_iff_ne, ne_eq]
      exact fun hh => h.1 hh.symm
    simp only [insertChan, he, Bool.false_eq_true, if_false, List.map_cons, ih h.2,
      List.cons_append]

/-- On a duplicate-free table, removing a key filters it out of the key list. -/
theorem keys_removeChan (l : ChanTable) (k : String)
    (h : (l.map Prod.fst).Nodup) :
    (removeChan l k).map Prod.fst = (l.map Prod.fst).filter (fun x => x != k) := by
  induction l with
  | nil => rfl
  | cons hd rest ih =>
    obtain ⟨k', c'⟩ := hd
    simp only [List.map_cons, List.nodup_cons] at h
    cases he : k' == k with
    | false =>
      have hbne : (k' != k) = true := by simp [bne, he]
      simp only [removeChan, he, Bool.false_eq_true, if_false, List.map_cons,
        List.filter_cons, hbne, if_true, ih h.2]
    | true =>
      have hkk : k' = k := by simpa using he
      have hbne : (k' != k) = false := by simp [bne, he]
      simp only [removeChan, he, if_true, List.map_cons, List.filter_cons, hbne,
        Bool.false_eq_true, if_false]
      symm
      apply List.filter_eq_self.mpr
      intro x hx
      simp only [bne_iff_ne, ne_eq]
      intro hxe
      exact h.1 ((hkk.trans hxe.symm) ▸ hx)

/-- Mapping to ids commutes with filtering by id. -/
theorem map_id_filter (l : List Participant) (cid : String) :
    (l.filter (fun p => p.id != cid)).map (fun p => p.id) =
      (l.map (fun p => p.id)).filter (fun x => x != cid) := by
  induction l with
  | nil => rfl
  | cons p rest ih =>
    simp only [List.filter_cons, List.map_cons]
    cases hb : p.id != cid with
    | false => simp [hb, ih]
    | true => simp [hb, ih]

/-- A completed connect attempt — successful or failed — preserves the
lockstep invariant. -/
theorem connect_execute_preserves_InSync (s : ServerState) (cid : String)
    (ch : Chan) (now : Int) (h : InSync s) :
    InSync (ConnectParticipantUseCase.execute s cid ch now).2 := by
  obtain ⟨hc, hp, hiff⟩ := h
  cases hdup : (get_all_connected_client_ids s.room).any (fun id => id == cid) with
  | true =>
    simp only [ConnectParticipantUseCase.execute, hdup, if_true]
    exact ⟨hc, hp, hiff⟩
  | false =>
    have hnotmem : cid ∉ s.room.participants.map (fun p => p.id) := by
      intro hmem
      have hwit : (get_all_connected_client_ids s.room).any (fun id => id == cid) = true :=
        List.any_eq_true.mpr ⟨cid, hmem, by simp⟩
      rw [hdup] at hwit
      exact absurd hwit (by simp)
    cases hadd : s.room.add_participant { id := cid, connected_at := now } with
    | error e =>
      simp only [ConnectParticipantUseCase.execute, hdup, Bool.false_eq_true, if_false, hadd]
      exact ⟨hc, hp, hiff⟩
    | ok room' =>
      have hroom' : room'.participants =
          s.room.participants ++ [{ id := cid, connected_at := now }] := by
        unfold Room.add_participant at hadd
        split at hadd
        · exact absurd hadd (by simp)
        · have hinj := Except.ok.inj hadd
          rw [← hinj]
      have hkeys : cid ∉ s.clients.map Prod.fst := fun hx => hnotmem ((hiff cid).mp hx)
      simp only [ConnectParticipantUseCase.execute, hdup, Bool.false_eq_true, if_false, hadd,
        WebSocketMessagePusher.register_client]
      refine ⟨?_, ?_, ?_⟩
      · rw [keys_insertChan_of_not_mem s.clients cid ch hkeys]
        exact nodup_append_singleton _ _ hc hkeys
      · rw [hroom', List.map_append]
        exact nodup_append_singleton _ _ hp hnotmem
      · intro x
        rw [keys_insertChan_of_not_mem s.clients cid ch hkeys, hroom', List.map_append]
        simp only [List.mem_append, List.mem_singleton, List.map_cons, List.map_nil,
          List.mem_cons]
        constructor
        · rintro (hx | hx)
          · exact Or.inl ((hiff x).mp hx)
          · exact Or.inr (by simpa using hx)
        · rintro (hx | hx)
          · exact Or.inl ((hiff x).mpr hx)
          · exact Or.inr (by simpa using hx)

/-- A completed disconnect attempt — successful or failed — preserves the
lockstep invariant. -/
theorem disconnect_execute_preserves_InSync (s : ServerState) (cid : String)
    (h : InSync s) : InSync (DisconnectParticipantUseCase.execute s cid).2 := by
  obtain ⟨hc, hp, hiff⟩ := h
  cases hany : (get_all_connected_client_ids s.room).any (fun id => id == cid) with
  | false =>
    simp only [DisconnectParticipantUseCase.execute, hany, Bool.not_false, if_true]
    exact ⟨hc, hp, hiff⟩
  | true =>
    simp only [DisconnectParticipantUseCase.execute, hany, Bool.not_true, Bool.false_eq_true,
      if_false, Room.remove_participant, WebSocketMessagePusher.unregister_client]
    refine ⟨?_, ?_, ?_⟩
    · rw [keys_removeChan s.clients cid hc]
      exact List.Nodup.filter _ hc
    · rw [map_id_filter]
      exact List.Nodup.filter _ hp
    · intro x
      rw [keys_removeChan s.clients cid hc, map_id_filter]
      simp only [List.mem_filter]
      exact and_congr_left (fun _ => hiff x)

/-- One completed operation preserves the lockstep invariant. -/
theorem applyOp_preserves_InSync (s : ServerState) (op : Op) (h : InSync s) :
    InSync (applyOp s op) := by
  cases op with
  | connect cid ch now => exact connect_execute_preserves_InSync s cid ch now h
  | disconnect cid => exact disconnect_execute_preserves_InSync s cid h

/-- Any sequence of completed operations preserves the lockstep invariant. -/
theorem run_preserves_InSync (ops : List Op) (s : ServerState) (h : InSync s) :
    InSync (run s ops) := by
  induction ops generalizing s with
  | nil => exact h
  | cons op rest ih => exact ih (applyOp s op) (applyOp_preserves_InSync s op h)

/-- C9: starting from an empty room (any capacities) and an empty hub
table, after every sequence of completed Connect and Disconnect
operations the set of client ids registered in the broadcast hub equals
the set of participant ids held by the Room store; failed attempts leave
both untouched, as each operation preserves the lockstep invariant. -/
theorem claim_C9_hub_room_lockstep (pc mc : Nat) (ops : List Op) :
    ∀ x : String,
      x ∈ (run { room := Room.with_capacity pc mc, clients := [] } ops).clients.map
        Prod.fst ↔
      x ∈ (run { room := Room.with_capacity pc mc, clients := [] } ops).room.participants.map
        (fun p => p.id) := by
  have h0 : InSync { room := Room.with_capacity pc mc, clients := [] } := by
    refine ⟨List.nodup_nil, ?_, ?_⟩ <;> simp [Room.with_capacity]
  exact (run_preserves_InSync ops _ h0).2.2

end Engawa
